import Mathlib

/-!
Verification of the dynamic-array container from src/vector.h.

The C++ class `Vector<T>` stores its live elements in slots `[0, size_)` of a
raw buffer `data_` of capacity `data_.Capacity()`. We model the observable
state by the list of live element values together with the capacity. A move of
an individual `T` object is modeled by a value copy: a moved-from slot in the
source is always immediately overwritten or destroyed, so at the level of
observable values the two coincide.

Exception behaviour of the reallocation path and destructor accounting of move
assignment are modeled separately by instrumented versions of the same source
functions (see `uninitializedCopyN`, `ReallocateMemoryAddingNewElement`,
`moveAssign`): each `T` constructor invocation is numbered and a chosen
invocation throws, and the number of `~T()` calls performed is reported.
-/

namespace AdvancedVector

variable {α : Type}

/-- Observable state of `Vector<T>`: `elems` are the live values in slots
`[0, size_)` of `data_`, and `cap` is `data_.Capacity()`. -/
structure Vector (α : Type) where
  elems : List α
  cap : Nat
deriving DecidableEq

namespace Vector

/-- size_t Size() const noexcept -/
def Size (v : Vector α) : Nat := v.elems.length

/-- size_t Capacity() const noexcept -/
def Capacity (v : Vector α) : Nat := v.cap

/-- Vector(): default construction, empty buffer of capacity 0, size 0. -/
def empty : Vector α := ⟨[], 0⟩

/-- Vector(size_t size): `data_(size)`, `size_(size)`, then
`std::uninitialized_value_construct_n(begin(), size)`. -/
def sized (α : Type) [Inhabited α] (n : Nat) : Vector α :=
  ⟨List.replicate n default, n⟩

/-- Vector(const Vector& other): `data_(other.size_)`, `size_(other.size_)`,
then `std::uninitialized_copy_n(other.data_.GetAddress(), size_, begin())`. -/
def copyCtor (other : Vector α) : Vector α := ⟨other.elems, other.elems.length⟩

/-- Vector(Vector&& other): `data_(std::move(other.data_))`, `size_(other.size_)`,
`other.size_ = 0`. Returns (the constructed vector, the source after the move):
the source is left with a null buffer of capacity 0 and size 0. -/
def moveCtor (other : Vector α) : Vector α × Vector α :=
  (⟨other.elems, other.cap⟩, ⟨[], 0⟩)

/-- size_t CalcNewCapacity() const noexcept:
`return size_ == 0 ? 1 : size_ * 2;` -/
def CalcNewCapacity (v : Vector α) : Nat :=
  if v.Size = 0 then 1 else v.Size * 2

/-- void Reserve(size_t capacity): early return when
`capacity <= data_.Capacity()`; otherwise allocate `RawMemory new_data(capacity)`,
transfer the elements with `CopyOrMoveToNewBuffer`, destroy the originals and
swap the new buffer in. -/
def Reserve (v : Vector α) (capacity : Nat) : Vector α :=
  if capacity ≤ v.cap then v
  else ⟨v.elems, capacity⟩

/-- void Resize(size_t new_size): when `new_size < size_` destroy the trailing
elements, otherwise `Reserve(new_size)` then value-construct the new slots;
finally `size_ = new_size`. -/
def Resize [Inhabited α] (v : Vector α) (new_size : Nat) : Vector α :=
  if new_size < v.Size then ⟨v.elems.take new_size, v.cap⟩
  else
    let w := v.Reserve new_size
    ⟨w.elems ++ List.replicate (new_size - v.Size) default, w.cap⟩

/-- T& EmplaceBack(Args&&... args): when `size_ == data_.Capacity()` delegate
to `ReallocateMemoryAddingNewElement(size_, ...)` (success path: the new
element ends up in slot `size_` of a buffer of capacity `CalcNewCapacity()`);
otherwise construct in place in slot `size_` and `++size_`. -/
def EmplaceBack (v : Vector α) (x : α) : Vector α :=
  if v.Size = v.cap then ⟨v.elems ++ [x], v.CalcNewCapacity⟩
  else ⟨v.elems ++ [x], v.cap⟩

/-- void PushBack(const T&) and void PushBack(T&&): both call EmplaceBack. -/
def PushBack (v : Vector α) (x : α) : Vector α := v.EmplaceBack x

/-- void PopBack() noexcept: `data_[size_ - 1].~T(); --size_;`.
Precondition in the source: the vector is non-empty. -/
def PopBack (v : Vector α) : Vector α := ⟨v.elems.dropLast, v.cap⟩

/-- iterator Emplace(const_iterator pos, Args&&... args), with
`index = pos - begin()`. Branches of the source: `index == size_` delegates to
EmplaceBack; a full buffer goes through `ReallocateMemoryAddingNewElement`
(success path shown); otherwise a temporary is built, the last element is
move-constructed into slot `size_`, `std::move_backward` shifts
`[index, size_-1)` one slot right and the temporary is move-assigned into slot
`index`. Returns (the updated vector, the cursor position of the insertion). -/
def Emplace (v : Vector α) (index : Nat) (x : α) : Vector α × Nat :=
  if index = v.Size then (v.EmplaceBack x, index)
  else if v.Size = v.cap then
    (⟨v.elems.take index ++ x :: v.elems.drop index, v.CalcNewCapacity⟩, index)
  else
    let shifted := v.elems.take (index + 1) ++ v.elems.drop index
    (⟨shifted.set index x, v.cap⟩, index)

/-- iterator Insert(const_iterator pos, const T&) and
iterator Insert(const_iterator pos, T&&): both call Emplace. -/
def Insert (v : Vector α) (index : Nat) (x : α) : Vector α × Nat :=
  v.Emplace index x

/-- iterator Erase(const_iterator pos), with `index = pos - begin()`:
`std::move(begin() + index + 1, end(), begin() + index)` shifts the tail one
slot left, the last slot is destroyed and `--size_`; returns
`begin() + index`. Returns (the updated vector, the returned cursor). -/
def Erase (v : Vector α) (index : Nat) : Vector α × Nat :=
  (⟨v.elems.take index ++ v.elems.drop (index + 1), v.cap⟩, index)

/-- void Swap(Vector& other) noexcept: swaps `size_` and the buffers. -/
def Swap (a b : Vector α) : Vector α × Vector α := (b, a)

/-- Vector& operator=(const Vector& rhs), body of the `this != &rhs` branch.
When `rhs.size_ > data_.Capacity()`: `Vector rhs_copy(rhs); Swap(rhs_copy);`.
Otherwise `std::copy_n` over the common prefix, then either
`std::destroy_n` of the surplus or `std::uninitialized_copy_n` of the extra
tail, and `size_ = rhs.size_` last. -/
def copyAssignBody (a rhs : Vector α) : Vector α :=
  if rhs.Size > a.cap then
    copyCtor rhs
  else
    -- `std::copy_n(rhs.begin(), std::min(size_, rhs.size_), begin())` leaves
    -- the buffer holding the copied common prefix followed by the old tail;
    -- then either the surplus is destroyed or the extra tail is
    -- copy-constructed at `end()`, and `size_ = rhs.size_` last.
    if rhs.Size < a.Size then
      ⟨(rhs.elems.take (min a.Size rhs.Size)
          ++ a.elems.drop (min a.Size rhs.Size)).take rhs.Size, a.cap⟩
    else
      ⟨(rhs.elems.take (min a.Size rhs.Size)
          ++ a.elems.drop (min a.Size rhs.Size)) ++ rhs.elems.drop a.Size, a.cap⟩

/-- Vector& operator=(const Vector& rhs): the guard `this != &rhs` is an
object-identity test, modeled by the Boolean `same` (true exactly when both
arguments denote the same object, in which case the body is skipped). -/
def copyAssign (same : Bool) (a rhs : Vector α) : Vector α :=
  if same then a else copyAssignBody a rhs

/-- Vector& operator=(Vector&& rhs) noexcept:
`data_ = std::move(rhs.data_); size_ = std::exchange(rhs.size_, 0);`.
RawMemory move assignment executes `Deallocate(buffer_)` — a raw
`operator delete` of the destination buffer — and runs no `~T()` on the
destination elements; no other statement of the assignment destroys them
either. Returns (destination after, source after, number of `~T()` calls
performed by the whole assignment). -/
def moveAssign (a rhs : Vector α) : Vector α × Vector α × Nat :=
  (⟨rhs.elems, rhs.cap⟩, ⟨[], 0⟩, 0)

end Vector

/-- The container invariant of the spec: `0 <= size <= buffer.capacity`,
slots `[0, size)` holding live, fully constructed values in sequence order.
In this model the live slots in order are exactly `v.elems`, so the invariant
is the size bound (`0 ≤ size` holds in `Nat`). -/
def Inv (v : Vector α) : Prop := v.Size ≤ v.cap

/-! ### The exception-instrumented reallocation path

The code below re-expresses `ReallocateMemoryAddingNewElement` for a `T` whose
constructor invocations are globally numbered `1, 2, ...` and whose invocation
number `throwAt` throws (for `throwAt = 0` nothing throws). This is the
scenario of the spec where `CopyOrMoveToNewBuffer` takes the
`std::uninitialized_copy_n` branch: `T` is copy-constructible and its move
constructor is not noexcept, so every transfer of an element is a fallible
copy and the source elements stay live after a transfer. -/

/-- Raw buffer contents during unwinding: `none` is a slot holding no live
element (never initialized, already destroyed, or freed), `some x` a live
element of value `x`. -/
abbrev Slots := List (Option Nat)

/-- Number of constructed-but-not-yet-destroyed elements a buffer holds. -/
def countLive (s : Slots) : Nat := (s.filter Option.isSome).length

/-- Observable state left to the caller after an exception escaped
`ReallocateMemoryAddingNewElement`: the slots of the original buffer (still
installed as `data_`), the unchanged `size_` and the unchanged capacity. -/
structure Unwound where
  slots : Slots
  size : Nat
  cap : Nat
deriving DecidableEq

/-- Model of `std::uninitialized_copy_n(src, n, dst)` with instrumented copy
constructors: copies are constructed left to right, invocation numbers
starting at `cnt + 1`; invocation number `throwAt` throws. On a throw the
algorithm destroys the copies it had already constructed (the rollback the
standard requires of `uninitialized_copy_n`) and rethrows, so the destination
buffer ends up element-free; the error value is the counter at the throw. On
success the result is the list of constructed values (equal to the source
values) and the advanced counter. -/
def uninitializedCopyN (throwAt : Nat) : Nat → List Nat → Except Nat (List Nat × Nat)
  | cnt, [] => Except.ok ([], cnt)
  | cnt, x :: xs =>
    if cnt + 1 = throwAt then Except.error (cnt + 1)
    else
      match uninitializedCopyN throwAt (cnt + 1) xs with
      | Except.ok (ys, c) => Except.ok (x :: ys, c)
      | Except.error c => Except.error c

/-- Model of `T* ReallocateMemoryAddingNewElement(size_t index, Args&&...)`
called on a vector holding `elems` (so `size_ = elems.length`) with capacity
`cap`, inserting the value `newVal` at `index`; `throwAt` numbers the
throwing constructor invocation. Mirrors the source statement by statement:

1. `RawMemory new_data(CalcNewCapacity())`;
2. `new (new_data + index) T(args...)` — constructor invocation number 1; if
   it throws, `new_data` is freed raw and the original vector is untouched;
3. first try block: `CopyOrMoveToNewBuffer(begin(), new_data, index)` then
   `std::destroy_n(begin(), index)`; the catch destroys `ptr` and rethrows
   (a partial transfer already rolled itself back);
4. when `index < size_`, second try block:
   `CopyOrMoveToNewBuffer(begin() + index, new_data + index + 1, size_ - index)`
   then `std::destroy_n(begin() + index, size_ - index)`; the catch runs
   `std::destroy_n(new_data.GetAddress(), index + 1)` and rethrows;
5. `data_.Swap(new_data); ++size_;`.

Note that step 3 destroys the leading originals before step 4 runs, so an
error raised in step 4 leaves the original buffer with slots `[0, index)`
already destroyed while `size_` and the capacity are unchanged. -/
def ReallocateMemoryAddingNewElement (throwAt index newVal : Nat)
    (elems : List Nat) (cap : Nat) : Except Unwound (Vector Nat) :=
  let size := elems.length
  let newCap := if size = 0 then 1 else size * 2
  if 1 = throwAt then
    Except.error ⟨elems.map some, size, cap⟩
  else
    match uninitializedCopyN throwAt 1 (elems.take index) with
    | Except.error _ =>
      Except.error ⟨elems.map some, size, cap⟩
    | Except.ok (lead, cnt) =>
      let slotsAfterLeadDestroy : Slots :=
        List.replicate index none ++ (elems.drop index).map some
      if index < size then
        match uninitializedCopyN throwAt cnt (elems.drop index) with
        | Except.error _ =>
          Except.error ⟨slotsAfterLeadDestroy, size, cap⟩
        | Except.ok (tail, _) =>
          Except.ok ⟨lead ++ newVal :: tail, newCap⟩
      else
        Except.ok ⟨lead ++ [newVal], newCap⟩

/-! ### Operation traces

A small operation language over the public mutating interface, used to state
the reachability invariant (claim about every vector reachable from a
constructor by public operations) and the push/pop history property. -/

/-- One public mutating call. Binary calls carry the other operand vector. -/
inductive Op (α : Type) where
  | reserve (c : Nat)
  | resize (n : Nat)
  | pushBack (x : α)
  | emplaceBack (x : α)
  | popBack
  | insert (i : Nat) (x : α)
  | emplace (i : Nat) (x : α)
  | erase (i : Nat)
  | copyAssign (b : Vector α)
  | moveAssign (b : Vector α)
  | swap (b : Vector α)

/-- Effect of one public call on the traced vector. -/
def Op.apply [Inhabited α] : Op α → Vector α → Vector α
  | Op.reserve c, v => v.Reserve c
  | Op.resize n, v => v.Resize n
  | Op.pushBack x, v => v.PushBack x
  | Op.emplaceBack x, v => v.EmplaceBack x
  | Op.popBack, v => v.PopBack
  | Op.insert i x, v => (v.Insert i x).1
  | Op.emplace i x, v => (v.Emplace i x).1
  | Op.erase i, v => (v.Erase i).1
  | Op.copyAssign b, v => Vector.copyAssign false v b
  | Op.moveAssign b, v => (Vector.moveAssign v b).1
  | Op.swap b, v => (Vector.Swap v b).1

/-- Precondition of one public call: `PopBack` and `Erase` respect their
documented preconditions, insertion positions are valid, and an operand
vector supplied to a binary call is itself a well-formed vector. -/
def Op.pre : Op α → Vector α → Bool
  | Op.popBack, v => decide (0 < v.Size)
  | Op.erase i, v => decide (i < v.Size)
  | Op.insert i _, v => decide (i ≤ v.Size)
  | Op.emplace i _, v => decide (i ≤ v.Size)
  | Op.copyAssign b, _ => decide (b.Size ≤ b.cap)
  | Op.moveAssign b, _ => decide (b.Size ≤ b.cap)
  | Op.swap b, _ => decide (b.Size ≤ b.cap)
  | _, _ => true

/-- A call sequence is valid from `v` when every call satisfies its
precondition in the state it is applied to. -/
def validTrace [Inhabited α] : Vector α → List (Op α) → Bool
  | _, [] => true
  | v, op :: rest => op.pre v && validTrace (op.apply v) rest

/-- Run a call sequence from an initial vector. -/
def runOps [Inhabited α] (v : Vector α) (ops : List (Op α)) : Vector α :=
  ops.foldl (fun w op => op.apply w) v

/-- The four ways a vector comes into existence: default, sized, copy and
move construction (the move source being a well-formed vector). -/
inductive Constructed {α : Type} [Inhabited α] : Vector α → Prop where
  | mkDefault : Constructed Vector.empty
  | mkSized (n : Nat) : Constructed (Vector.sized α n)
  | mkCopy (b : Vector α) : Constructed (Vector.copyCtor b)
  | mkMove (b : Vector α) (h : Inv b) : Constructed (Vector.moveCtor b).1

/-! ### Push/pop histories -/

/-- One call of a push/pop history. -/
inductive PushPop (α : Type) where
  | push (x : α)
  | pop

/-- Effect of a push/pop call on the vector. -/
def PushPop.applyVec : Vector α → PushPop α → Vector α
  | v, PushPop.push x => v.PushBack x
  | v, PushPop.pop => v.PopBack

/-- Run a push/pop history on the vector. -/
def runPushPop (v : Vector α) (ops : List (PushPop α)) : Vector α :=
  ops.foldl PushPop.applyVec v

/-- Modelled from the spec: the reference contents after a push/pop history —
a push appends the value, a pop removes the most recently pushed remaining
value, so the list always holds the not-yet-popped pushed values in push
order. -/
def PushPop.applyList : List α → PushPop α → List α
  | l, PushPop.push x => l ++ [x]
  | l, PushPop.pop => l.dropLast

/-- Run the reference semantics of a push/pop history. -/
def runStack (l : List α) (ops : List (PushPop α)) : List α :=
  ops.foldl PushPop.applyList l

/-- Number of pushes in a history. -/
def countPushes : List (PushPop α) → Nat
  | [] => 0
  | PushPop.push _ :: rest => countPushes rest + 1
  | PushPop.pop :: rest => countPushes rest

/-- Number of pops in a history. -/
def countPops : List (PushPop α) → Nat
  | [] => 0
  | PushPop.push _ :: rest => countPops rest
  | PushPop.pop :: rest => countPops rest + 1

/-- A push/pop history is valid from contents `l` when every pop is applied
to a non-empty container. -/
def validPushPop : List α → List (PushPop α) → Bool
  | _, [] => true
  | l, PushPop.push x :: rest => validPushPop (l ++ [x]) rest
  | l, PushPop.pop :: rest => decide (0 < l.length) && validPushPop l.dropLast rest

/-! ### Supporting lemmas -/

theorem Vector.EmplaceBack_elems (v : Vector α) (x : α) :
    (v.EmplaceBack x).elems = v.elems ++ [x] := by
  unfold EmplaceBack
  split <;> rfl

theorem Vector.PushBack_elems (v : Vector α) (x : α) :
    (v.PushBack x).elems = v.elems ++ [x] :=
  v.EmplaceBack_elems x

theorem Vector.CalcNewCapacity_eq_max (v : Vector α) :
    v.CalcNewCapacity = max 1 (v.Size * 2) := by
  unfold CalcNewCapacity
  split <;> omega

/-- Setting slot `A.length` of `A ++ y :: B` replaces `y`. -/
theorem set_middle (A B : List α) (y x : α) :
    (A ++ y :: B).set A.length x = A ++ x :: B := by
  induction A with
  | nil => rfl
  | cons a A ih => simp [ih]

/-- The in-place insertion dance of `Emplace`: append a copy of the last
element, shift right, overwrite slot `i` — as a single list computation. -/
theorem shifted_set_eq_insert (l : List α) (i : Nat) (x : α) (h : i < l.length) :
    (l.take (i + 1) ++ l.drop i).set i x = l.take i ++ x :: l.drop i := by
  induction l generalizing i with
  | nil => simp at h
  | cons a l ih =>
    cases i with
    | zero => simp
    | succ n =>
      have hn : n < l.length := by simpa using h
      simpa using ih n hn

/-- Value contents of `Emplace` at a valid position, over all three branches
of the source. -/
theorem Vector.Emplace_elems (v : Vector α) (i : Nat) (x : α) (h : i ≤ v.Size) :
    (v.Emplace i x).1.elems = v.elems.take i ++ x :: v.elems.drop i := by
  have hlen : v.Size = v.elems.length := rfl
  unfold Emplace
  by_cases h1 : i = v.Size
  · simp only [if_pos h1]
    rw [Vector.EmplaceBack_elems, h1, hlen, List.take_length, List.drop_length]
  · simp only [if_neg h1]
    by_cases h2 : v.Size = v.cap
    · simp only [if_pos h2]
    · simp only [if_neg h2]
      show (v.elems.take (i + 1) ++ v.elems.drop i).set i x = _
      exact shifted_set_eq_insert v.elems i x (by omega)

theorem drop_at_left_length (A C : List α) (i : Nat) (h : A.length = i) :
    (A ++ C).drop i = C := by
  rw [← h]
  exact List.drop_left _ _

theorem take_at_left_length (A C : List α) (i : Nat) (h : A.length = i) :
    (A ++ C).take i = A := by
  rw [← h]
  exact List.take_left _ _

theorem take_at_prefix (l : List α) (i : Nat) (x : α) (h : i ≤ l.length) :
    (l.take i ++ x :: l.drop i).take i = l.take i :=
  take_at_left_length _ _ i (by rw [List.length_take]; omega)

theorem drop_past_inserted (l : List α) (i : Nat) (x : α) (h : i ≤ l.length) :
    (l.take i ++ x :: l.drop i).drop (i + 1) = l.drop i := by
  have hsplit : l.take i ++ x :: l.drop i = (l.take i ++ [x]) ++ l.drop i := by simp
  rw [hsplit]
  exact drop_at_left_length _ _ (i + 1)
    (by rw [List.length_append, List.length_take]; simp; omega)

/-- The element-wise branch analysis of copy assignment: in every branch the
destination ends up holding exactly the source values. -/
theorem copyAssignBody_elems (a b : Vector α) :
    (Vector.copyAssignBody a b).elems = b.elems := by
  unfold Vector.copyAssignBody Vector.copyCtor Vector.Size
  by_cases hbig : b.elems.length > a.cap
  · rw [if_pos hbig]
  · rw [if_neg hbig]
    by_cases hlt : b.elems.length < a.elems.length
    · rw [if_pos hlt]
      have hmin : min a.elems.length b.elems.length = b.elems.length :=
        Nat.min_eq_right (Nat.le_of_lt hlt)
      rw [hmin, List.take_length]
      exact take_at_left_length _ _ _ rfl
    · rw [if_neg hlt]
      have hmin : min a.elems.length b.elems.length = a.elems.length :=
        Nat.min_eq_left (by omega)
      rw [hmin, List.drop_length, List.append_nil, List.take_append_drop]

/-- The capacity after copy assignment: the source size when copy-and-swap
ran, the old capacity otherwise. -/
theorem copyAssignBody_cap (a b : Vector α) :
    (Vector.copyAssignBody a b).cap
      = if b.Size > a.cap then b.Size else a.cap := by
  unfold Vector.copyAssignBody Vector.copyCtor
  by_cases hbig : b.Size > a.cap
  · rw [if_pos hbig, if_pos hbig]
    rfl
  · rw [if_neg hbig, if_neg hbig]
    split <;> rfl

/-- Sanity of the instrumented path: with no throwing invocation,
`uninitializedCopyN` copies everything and advances the counter. -/
theorem uninitializedCopyN_no_throw (cnt : Nat) (l : List Nat) :
    uninitializedCopyN 0 cnt l = Except.ok (l, cnt + l.length) := by
  induction l generalizing cnt with
  | nil => rfl
  | cons x xs ih =>
    unfold uninitializedCopyN
    simp [ih (cnt + 1)]
    omega

/-- Sanity of the instrumented path: with no throwing invocation the
reallocation produces exactly the successful insertion at `index`, with the
doubled capacity. -/
theorem realloc_no_throw (index newVal : Nat) (elems : List Nat) (cap : Nat)
    (h : index ≤ elems.length) :
    ReallocateMemoryAddingNewElement 0 index newVal elems cap
      = Except.ok ⟨elems.take index ++ newVal :: elems.drop index,
          if elems.length = 0 then 1 else elems.length * 2⟩ := by
  unfold ReallocateMemoryAddingNewElement
  simp only [uninitializedCopyN_no_throw]
  by_cases hlt : index < elems.length
  · simp [hlt]
  · have hidx : index = elems.length := by omega
    simp [hlt, hidx, List.take_length, List.drop_length]

/-! ### Claims -/

/-- C1: refuted on the code (code bug). Take a full vector of two elements
`[10, 20]` (size 2 = capacity 2) and `Insert`/`Emplace` at index 1, for a `T`
with a throwing copy constructor whose third constructor invocation — the copy
of the trailing element `20` — throws. In the source,
`std::destroy_n(begin(), index)` has already destroyed the leading originals
before the trailing transfer is attempted, so after the exception propagates
the vector still reports size 2 and capacity 2 but slot 0 of its buffer was
destroyed: the element values are not intact and the count of
constructed-but-not-yet-destroyed `T` instances fell from 2 to 1 (a later
destruction of the vector would destroy slot 0 a second time). The strong
guarantee the claim states does not hold. -/
theorem realloc_partial_failure_corrupts_vector :
    ReallocateMemoryAddingNewElement 3 1 30 [10, 20] 2
      = Except.error ⟨[none, some 20], 2, 2⟩
    ∧ countLive [none, some 20] = 1
    ∧ countLive (([10, 20] : List Nat).map some) = 2 :=
  ⟨rfl, rfl, rfl⟩

/-- C2: refuted on the code (code bug). Move-assigning `[2]` into a vector
holding `[1]` does steal the buffer and size and resets the source to empty,
but the destination element is never destroyed: the assignment runs
`data_ = std::move(rhs.data_)`, whose `RawMemory` move assignment frees the
old buffer with a raw `operator delete` and performs zero `~T()` calls, so a
destination of size 1 is leaked rather than destroyed, contradicting the
claim that every live destination element is destroyed first. -/
theorem moveAssign_leaks_destination_elements :
    Vector.moveAssign (⟨[1], 1⟩ : Vector Nat) ⟨[2], 1⟩ = (⟨[2], 1⟩, ⟨[], 0⟩, 0)
    ∧ (⟨[1], 1⟩ : Vector Nat).Size = 1 :=
  ⟨rfl, rfl⟩

/-- C3: confirmed. On a full vector (size = capacity), the growth-triggered
`EmplaceBack`, `PushBack`, `Emplace` and `Insert` all set the new capacity to
exactly `max 1 (old size * 2)`, the value of `CalcNewCapacity`. -/
theorem growth_doubles_capacity (v : Vector α) (x : α) (i : Nat)
    (hfull : v.Size = v.cap) (hi : i ≤ v.Size) :
    (v.EmplaceBack x).cap = max 1 (v.Size * 2)
    ∧ (v.PushBack x).cap = max 1 (v.Size * 2)
    ∧ (v.Emplace i x).1.cap = max 1 (v.Size * 2)
    ∧ (v.Insert i x).1.cap = max 1 (v.Size * 2) := by
  have hEB : (v.EmplaceBack x).cap = max 1 (v.Size * 2) := by
    unfold Vector.EmplaceBack
    rw [if_pos hfull]
    exact v.CalcNewCapacity_eq_max
  have hEm : (v.Emplace i x).1.cap = max 1 (v.Size * 2) := by
    unfold Vector.Emplace
    by_cases h1 : i = v.Size
    · simpa [h1] using hEB
    · simp only [if_neg h1, if_pos hfull]
      exact v.CalcNewCapacity_eq_max
  exact ⟨hEB, hEB, hEm, hEm⟩

/-- Witness for C3 at the concrete full vector `[5]` of capacity 1 (scenario 2
of the spec): growth yields capacity `max 1 2 = 2`. -/
theorem growth_doubles_capacity_witness :
    ((⟨[5], 1⟩ : Vector Nat).EmplaceBack 6).cap = max 1 ((⟨[5], 1⟩ : Vector Nat).Size * 2)
    ∧ ((⟨[5], 1⟩ : Vector Nat).PushBack 6).cap = max 1 ((⟨[5], 1⟩ : Vector Nat).Size * 2)
    ∧ ((⟨[5], 1⟩ : Vector Nat).Emplace 0 6).1.cap = max 1 ((⟨[5], 1⟩ : Vector Nat).Size * 2)
    ∧ ((⟨[5], 1⟩ : Vector Nat).Insert 0 6).1.cap = max 1 ((⟨[5], 1⟩ : Vector Nat).Size * 2) :=
  growth_doubles_capacity ⟨[5], 1⟩ 6 0 rfl (by decide)

/-- C5: confirmed. `Reserve(c)` with `c <= Capacity()` changes nothing at all;
with `c > Capacity()` it sets the capacity to exactly `c` and leaves the size
and all element values unchanged. -/
theorem reserve_spec (v : Vector α) (c : Nat) :
    (c ≤ v.Capacity → v.Reserve c = v)
    ∧ (v.Capacity < c →
        (v.Reserve c).Capacity = c
        ∧ (v.Reserve c).Size = v.Size
        ∧ (v.Reserve c).elems = v.elems) := by
  unfold Vector.Reserve Vector.Capacity Vector.Size
  by_cases h : c ≤ v.cap
  · rw [if_pos h]
    exact ⟨fun _ => rfl, fun hc => absurd hc (Nat.not_lt.mpr h)⟩
  · rw [if_neg h]
    exact ⟨fun hc => absurd hc h, fun _ => ⟨rfl, rfl, rfl⟩⟩

/-- Witness for C5: `Reserve(2)` on a vector of capacity 3 is the identity,
and `Reserve(10)` on the empty vector yields capacity exactly 10 (scenario 3
of the spec). -/
theorem reserve_spec_witness :
    (⟨[5, 6], 3⟩ : Vector Nat).Reserve 2 = ⟨[5, 6], 3⟩
    ∧ ((Vector.empty : Vector Nat).Reserve 10).Capacity = 10
    ∧ ((Vector.empty : Vector Nat).Reserve 10).Size = (Vector.empty : Vector Nat).Size :=
  ⟨(reserve_spec ⟨[5, 6], 3⟩ 2).1 (by decide),
   ((reserve_spec (Vector.empty : Vector Nat) 10).2 (by decide)).1,
   ((reserve_spec (Vector.empty : Vector Nat) 10).2 (by decide)).2.1⟩

/-- C4: confirmed. After copy assignment the destination holds exactly the
source values (so sizes agree; in this value-level model the source is a pure
value and is trivially unchanged); when the source size exceeds the
destination capacity the result is the freshly built copy with capacity equal
to the source size (copy-and-swap), otherwise the destination capacity is
kept; self-assignment — the `this != &rhs` guard taken — leaves the vector
unchanged. -/
theorem copy_assignment_spec (a b : Vector α) :
    (Vector.copyAssign false a b).elems = b.elems
    ∧ (Vector.copyAssign false a b).Size = b.Size
    ∧ (b.Size > a.Capacity → (Vector.copyAssign false a b).Capacity = b.Size)
    ∧ (b.Size ≤ a.Capacity → (Vector.copyAssign false a b).Capacity = a.Capacity)
    ∧ Vector.copyAssign true a a = a := by
  have hfalse : Vector.copyAssign false a b = Vector.copyAssignBody a b := rfl
  have helems : (Vector.copyAssignBody a b).elems = b.elems := copyAssignBody_elems a b
  have hcap : (Vector.copyAssignBody a b).cap
      = if b.Size > a.cap then b.Size else a.cap := copyAssignBody_cap a b
  refine ⟨by rw [hfalse, helems], ?_, ?_, ?_, rfl⟩
  · show (Vector.copyAssign false a b).elems.length = b.elems.length
    rw [hfalse, helems]
  · intro h
    have h' : b.Size > a.cap := h
    rw [hfalse]
    show (Vector.copyAssignBody a b).cap = b.Size
    rw [hcap, if_pos h']
  · intro h
    have h' : ¬ b.Size > a.cap := Nat.not_lt.mpr h
    rw [hfalse]
    show (Vector.copyAssignBody a b).cap = a.cap
    rw [hcap, if_neg h']

/-- Witness for C4: assigning `[7, 8, 9]` (capacity 3) into `[1, 2]`
(capacity 2) grows by copy-and-swap; self-assignment is the identity. -/
theorem copy_assignment_spec_witness :
    (Vector.copyAssign false (⟨[1, 2], 2⟩ : Vector Nat) ⟨[7, 8, 9], 3⟩).elems = [7, 8, 9]
    ∧ (Vector.copyAssign false (⟨[1, 2], 2⟩ : Vector Nat) ⟨[7, 8, 9], 3⟩).Capacity
        = (⟨[7, 8, 9], 3⟩ : Vector Nat).Size
    ∧ Vector.copyAssign true (⟨[1, 2], 2⟩ : Vector Nat) ⟨[1, 2], 2⟩ = ⟨[1, 2], 2⟩ :=
  ⟨(copy_assignment_spec ⟨[1, 2], 2⟩ ⟨[7, 8, 9], 3⟩).1,
   (copy_assignment_spec ⟨[1, 2], 2⟩ ⟨[7, 8, 9], 3⟩).2.2.1 (by decide),
   (copy_assignment_spec ⟨[1, 2], 2⟩ ⟨[1, 2], 2⟩).2.2.2.2⟩

/-- C8: confirmed. For a valid insertion position, `Insert` at `i` followed by
`Erase` at `i` restores the original element sequence and size. -/
theorem insert_erase_restores (v : Vector α) (i : Nat) (x : α) (h : i ≤ v.Size) :
    ((v.Insert i x).1.Erase i).1.elems = v.elems
    ∧ ((v.Insert i x).1.Erase i).1.Size = v.Size := by
  have hins : (v.Insert i x).1.elems = v.elems.take i ++ x :: v.elems.drop i :=
    v.Emplace_elems i x h
  have helems : ((v.Insert i x).1.Erase i).1.elems = v.elems := by
    show ((v.Insert i x).1.elems.take i ++ (v.Insert i x).1.elems.drop (i + 1)) = v.elems
    rw [hins, take_at_prefix v.elems i x h, drop_past_inserted v.elems i x h,
      List.take_append_drop]
  exact ⟨helems, congrArg List.length helems⟩

/-- Witness for C8 at scenario 5 of the spec: inserting 3 into `[1, 2, 4]` at
index 2 and erasing index 2 restores `[1, 2, 4]`. -/
theorem insert_erase_restores_witness :
    (((⟨[1, 2, 4], 3⟩ : Vector Nat).Insert 2 3).1.Erase 2).1.elems = [1, 2, 4]
    ∧ (((⟨[1, 2, 4], 3⟩ : Vector Nat).Insert 2 3).1.Erase 2).1.Size
        = (⟨[1, 2, 4], 3⟩ : Vector Nat).Size :=
  ⟨(insert_erase_restores ⟨[1, 2, 4], 3⟩ 2 3 (by decide)).1,
   (insert_erase_restores ⟨[1, 2, 4], 3⟩ 2 3 (by decide)).2⟩

/-- C9: confirmed. `Resize(n)` with `n < size` keeps the first `n` elements
and the capacity and sets the size to `n`; with `n >= size` it reserves room
for `n` (capacity exactly as after `Reserve(n)`, hence at least `n`), appends
`n - size` default-constructed values, sets the size to `n` and keeps the
first `size` element values. -/
theorem resize_spec [Inhabited α] (v : Vector α) (n : Nat) :
    (n < v.Size →
        v.Resize n = ⟨v.elems.take n, v.cap⟩ ∧ (v.Resize n).Size = n)
    ∧ (v.Size ≤ n →
        (v.Resize n).elems = v.elems ++ List.replicate (n - v.Size) default
        ∧ (v.Resize n).Capacity = (v.Reserve n).Capacity
        ∧ n ≤ (v.Resize n).Capacity
        ∧ (v.Resize n).Size = n
        ∧ (v.Resize n).elems.take v.Size = v.elems) := by
  have hlen : v.Size = v.elems.length := rfl
  unfold Vector.Resize
  by_cases h : n < v.Size
  · rw [if_pos h]
    refine ⟨fun _ => ⟨rfl, ?_⟩, fun hc => absurd hc (Nat.not_le.mpr h)⟩
    show (v.elems.take n).length = n
    rw [List.length_take]
    omega
  · rw [if_neg h]
    refine ⟨fun hc => absurd hc h, fun hle => ?_⟩
    have hres : (v.Reserve n).elems = v.elems := by
      unfold Vector.Reserve
      split <;> rfl
    have hcap : n ≤ (v.Reserve n).Capacity := by
      unfold Vector.Reserve Vector.Capacity
      split
      · omega
      · exact Nat.le_refl n
    refine ⟨?_, rfl, hcap, ?_, ?_⟩
    · show (v.Reserve n).elems ++ List.replicate (n - v.Size) default
          = v.elems ++ List.replicate (n - v.Size) default
      rw [hres]
    · show ((v.Reserve n).elems ++ List.replicate (n - v.Size) default).length = n
      rw [hres, List.length_append, List.length_replicate]
      omega
    · show ((v.Reserve n).elems ++ List.replicate (n - v.Size) default).take v.Size
          = v.elems
      rw [hres]
      exact take_at_left_length _ _ _ hlen.symm

/-- Witness for C9: shrinking `[1, 2, 3]` to size 1 and growing it to size 5
(with capacity growing to exactly 5). -/
theorem resize_spec_witness :
    ((⟨[1, 2, 3], 3⟩ : Vector Nat).Resize 1 = ⟨[1], 3⟩
      ∧ ((⟨[1, 2, 3], 3⟩ : Vector Nat).Resize 1).Size = 1)
    ∧ (((⟨[1, 2, 3], 3⟩ : Vector Nat).Resize 5).elems = [1, 2, 3] ++ List.replicate 2 default
      ∧ ((⟨[1, 2, 3], 3⟩ : Vector Nat).Resize 5).Size = 5) := by
  refine ⟨?_, ?_, ?_⟩
  · exact (resize_spec ⟨[1, 2, 3], 3⟩ 1).1 (by decide)
  · exact ((resize_spec ⟨[1, 2, 3], 3⟩ 5).2 (by decide)).1
  · exact ((resize_spec ⟨[1, 2, 3], 3⟩ 5).2 (by decide)).2.2.2.1

/-- C10: confirmed. `Erase` at a valid position `i` returns the cursor `i` of
the updated vector: the elements from that cursor onwards are exactly the
elements that previously followed the erased one, the new size is one less,
and when the last element was erased the returned cursor is the end cursor
(equal to the new size). -/
theorem erase_returns_cursor (v : Vector α) (i : Nat) (h : i < v.Size) :
    (v.Erase i).2 = i
    ∧ (v.Erase i).1.elems.drop i = v.elems.drop (i + 1)
    ∧ (v.Erase i).1.Size = v.Size - 1
    ∧ (i + 1 = v.Size → (v.Erase i).2 = (v.Erase i).1.Size) := by
  have hlen : v.Size = v.elems.length := rfl
  have hdrop : (v.Erase i).1.elems.drop i = v.elems.drop (i + 1) := by
    show (v.elems.take i ++ v.elems.drop (i + 1)).drop i = v.elems.drop (i + 1)
    exact drop_at_left_length _ _ i (by rw [List.length_take]; omega)
  have hsize : (v.Erase i).1.Size = v.Size - 1 := by
    show (v.elems.take i ++ v.elems.drop (i + 1)).length = v.elems.length - 1
    rw [List.length_append, List.length_take, List.length_drop]
    omega
  refine ⟨rfl, hdrop, hsize, fun hend => ?_⟩
  rw [hsize]
  show i = v.Size - 1
  omega

/-- Witness for C10: erasing index 1 of `[1, 2, 3, 4]` returns cursor 1, from
which the remaining elements read `[3, 4]`, and the size drops to 3. -/
theorem erase_returns_cursor_witness :
    ((⟨[1, 2, 3, 4], 4⟩ : Vector Nat).Erase 1).2 = 1
    ∧ ((⟨[1, 2, 3, 4], 4⟩ : Vector Nat).Erase 1).1.elems.drop 1
        = ([1, 2, 3, 4] : List Nat).drop 2
    ∧ ((⟨[1, 2, 3, 4], 4⟩ : Vector Nat).Erase 1).1.Size = 3 :=
  ⟨(erase_returns_cursor ⟨[1, 2, 3, 4], 4⟩ 1 (by decide)).1,
   (erase_returns_cursor ⟨[1, 2, 3, 4], 4⟩ 1 (by decide)).2.1,
   (erase_returns_cursor ⟨[1, 2, 3, 4], 4⟩ 1 (by decide)).2.2.1⟩

/-! ### Invariant preservation (C6) -/

theorem Reserve_inv (v : Vector α) (c : Nat) (h : Inv v) : Inv (v.Reserve c) := by
  unfold Inv Vector.Reserve Vector.Size at *
  split
  · exact h
  · show v.elems.length ≤ c
    omega

theorem Resize_inv [Inhabited α] (v : Vector α) (n : Nat) (h : Inv v) :
    Inv (v.Resize n) := by
  unfold Inv Vector.Resize Vector.Size at *
  split
  · show (v.elems.take n).length ≤ v.cap
    rw [List.length_take]
    omega
  · show ((v.Reserve n).elems ++ List.replicate (n - v.elems.length) default).length
        ≤ (v.Reserve n).cap
    have hres : (v.Reserve n).elems = v.elems := by
      unfold Vector.Reserve
      split <;> rfl
    have hrescap : v.cap ≤ (v.Reserve n).cap ∧ n ≤ (v.Reserve n).cap := by
      unfold Vector.Reserve
      split
      · constructor
        · exact Nat.le_refl _
        · assumption
      · exact ⟨Nat.le_of_not_le (by assumption), Nat.le_refl n⟩
    rw [hres, List.length_append, List.length_replicate]
    omega

theorem EmplaceBack_inv (v : Vector α) (x : α) (h : Inv v) :
    Inv (v.EmplaceBack x) := by
  unfold Inv Vector.Size at h
  have hsize : (v.EmplaceBack x).Size = v.Size + 1 := by
    show (v.EmplaceBack x).elems.length = v.elems.length + 1
    rw [v.EmplaceBack_elems]
    simp only [List.length_append, List.length_cons, List.length_nil]
  by_cases hfull : v.Size = v.cap
  · have hcap : (v.EmplaceBack x).cap = max 1 (v.Size * 2) := by
      unfold Vector.EmplaceBack
      rw [if_pos hfull]
      exact v.CalcNewCapacity_eq_max
    unfold Inv
    rw [hsize, hcap]
    have : v.Size = v.elems.length := rfl
    omega
  · have hcap : (v.EmplaceBack x).cap = v.cap := by
      unfold Vector.EmplaceBack
      rw [if_neg hfull]
    unfold Inv
    rw [hsize, hcap]
    have h1 : v.Size = v.elems.length := rfl
    have h2 : v.Size ≠ v.cap := hfull
    omega

theorem PopBack_inv (v : Vector α) (h : Inv v) : Inv v.PopBack := by
  unfold Inv Vector.PopBack Vector.Size at *
  show v.elems.dropLast.length ≤ v.cap
  rw [List.length_dropLast]
  omega

theorem Emplace_inv (v : Vector α) (i : Nat) (x : α) (h : Inv v)
    (hi : i ≤ v.Size) : Inv (v.Emplace i x).1 := by
  have hi' : i ≤ v.elems.length := hi
  have hsize : (v.Emplace i x).1.Size = v.Size + 1 := by
    show (v.Emplace i x).1.elems.length = v.elems.length + 1
    rw [v.Emplace_elems i x hi]
    simp only [List.length_append, List.length_cons, List.length_take,
      List.length_drop]
    omega
  by_cases hfull : v.Size = v.cap
  · have hcap : (v.Emplace i x).1.cap = max 1 (v.Size * 2) := by
      unfold Vector.Emplace
      by_cases h1 : i = v.Size
      · rw [if_pos h1]
        show (v.EmplaceBack x).cap = _
        unfold Vector.EmplaceBack
        rw [if_pos hfull]
        exact v.CalcNewCapacity_eq_max
      · rw [if_neg h1, if_pos hfull]
        exact v.CalcNewCapacity_eq_max
    unfold Inv
    rw [hsize, hcap]
    omega
  · have hcap : (v.Emplace i x).1.cap = v.cap := by
      unfold Vector.Emplace
      by_cases h1 : i = v.Size
      · rw [if_pos h1]
        show (v.EmplaceBack x).cap = _
        unfold Vector.EmplaceBack
        rw [if_neg hfull]
      · rw [if_neg h1, if_neg hfull]
    unfold Inv at h ⊢
    rw [hsize, hcap]
    have h2 : v.Size ≠ v.cap := hfull
    omega

theorem Erase_inv (v : Vector α) (i : Nat) (h : Inv v) : Inv (v.Erase i).1 := by
  unfold Inv Vector.Erase Vector.Size at *
  show (v.elems.take i ++ v.elems.drop (i + 1)).length ≤ v.cap
  rw [List.length_append, List.length_take, List.length_drop]
  omega

theorem copyAssign_inv (a b : Vector α) : Inv (Vector.copyAssign false a b) := by
  have h1 : (Vector.copyAssign false a b).elems = b.elems := copyAssignBody_elems a b
  have h2 : (Vector.copyAssign false a b).cap
      = if b.Size > a.cap then b.Size else a.cap := copyAssignBody_cap a b
  unfold Inv Vector.Size
  rw [h1, h2]
  split
  · exact Nat.le_refl _
  · exact Nat.le_of_not_lt (by assumption)

theorem moveAssign_inv (a b : Vector α) (hb : Inv b) :
    Inv (Vector.moveAssign a b).1 := hb

theorem Swap_inv (a b : Vector α) (hb : Inv b) : Inv (Vector.Swap a b).1 := hb

/-- Every call preserves the invariant when its precondition holds. -/
theorem Op.apply_inv [Inhabited α] (op : Op α) (v : Vector α) (hv : Inv v)
    (hp : op.pre v = true) : Inv (op.apply v) := by
  cases op with
  | reserve c => exact Reserve_inv v c hv
  | resize n => exact Resize_inv v n hv
  | pushBack x => exact EmplaceBack_inv v x hv
  | emplaceBack x => exact EmplaceBack_inv v x hv
  | popBack => exact PopBack_inv v hv
  | insert i x => exact Emplace_inv v i x hv (of_decide_eq_true hp)
  | emplace i x => exact Emplace_inv v i x hv (of_decide_eq_true hp)
  | erase i => exact Erase_inv v i hv
  | copyAssign b => exact copyAssign_inv v b
  | moveAssign b =>
    have hb : b.Size ≤ b.cap := of_decide_eq_true hp
    exact moveAssign_inv v b hb
  | swap b =>
    have hb : b.Size ≤ b.cap := of_decide_eq_true hp
    exact Swap_inv v b hb

/-- The invariant is inductive along any valid call sequence. -/
theorem inv_runOps [Inhabited α] (ops : List (Op α)) (v : Vector α) (hv : Inv v)
    (ht : validTrace v ops = true) : Inv (runOps v ops) := by
  induction ops generalizing v with
  | nil => exact hv
  | cons op rest ih =>
    rw [validTrace, Bool.and_eq_true] at ht
    exact ih (op.apply v) (Op.apply_inv op v hv ht.1) ht.2

/-- Each constructor establishes the invariant. -/
theorem Constructed_inv [Inhabited α] {v : Vector α} (h : Constructed v) :
    Inv v := by
  cases h with
  | mkDefault => exact Nat.le_refl 0
  | mkSized n =>
    show (List.replicate n (default : α)).length ≤ n
    rw [List.length_replicate]
  | mkCopy b => exact Nat.le_refl _
  | mkMove b hb => exact hb

/-- C6: confirmed. Every vector obtained from a default-, sized-, copy- or
move-constructed vector by a valid sequence of public operations (Reserve,
Resize, PushBack/EmplaceBack, PopBack respecting its precondition,
Insert/Emplace at a valid position, Erase respecting its precondition,
copy/move assignment and Swap with well-formed operands) satisfies
`0 ≤ size ≤ capacity`; the live slots `[0, size)` in sequence order are the
model's element list itself. -/
theorem reachable_vector_invariant [Inhabited α] (v0 : Vector α)
    (ops : List (Op α)) (h0 : Constructed v0) (ht : validTrace v0 ops = true) :
    Inv (runOps v0 ops) :=
  inv_runOps ops v0 (Constructed_inv h0) ht

/-- Witness for C6: a concrete valid trace from the default-constructed
vector, mixing growth, insertion, erasure, resizing and assignment. -/
theorem reachable_vector_invariant_witness :
    Inv (runOps (Vector.empty : Vector Nat)
      [Op.pushBack 5, Op.insert 0 7, Op.emplace 2 9, Op.erase 0,
       Op.resize 6, Op.reserve 10, Op.popBack,
       Op.copyAssign ⟨[1, 2], 4⟩, Op.moveAssign ⟨[3], 2⟩,
       Op.swap ⟨[8, 8, 8], 5⟩, Op.emplaceBack 1]) :=
  reachable_vector_invariant Vector.empty _ Constructed.mkDefault (by decide)

/-! ### Push/pop histories (C7) -/

/-- The vector tracks the reference list semantics call by call. -/
theorem runPushPop_elems (ops : List (PushPop α)) (v : Vector α) :
    (runPushPop v ops).elems = runStack v.elems ops := by
  induction ops generalizing v with
  | nil => rfl
  | cons op rest ih =>
    cases op with
    | push x =>
      show (runPushPop (v.PushBack x) rest).elems
          = runStack (PushPop.applyList v.elems (PushPop.push x)) rest
      rw [ih (v.PushBack x)]
      show runStack (v.PushBack x).elems rest = _
      rw [v.PushBack_elems]
      rfl
    | pop =>
      show (runPushPop v.PopBack rest).elems
          = runStack (PushPop.applyList v.elems PushPop.pop) rest
      rw [ih v.PopBack]
      rfl

/-- Along a valid history the reference list loses exactly one element per
pop and gains one per push. -/
theorem runStack_length (ops : List (PushPop α)) (l : List α)
    (h : validPushPop l ops = true) :
    (runStack l ops).length + countPops ops = l.length + countPushes ops := by
  induction ops generalizing l with
  | nil => rfl
  | cons op rest ih =>
    cases op with
    | push x =>
      rw [validPushPop] at h
      have hrec := ih (l ++ [x]) h
      show (runStack (l ++ [x]) rest).length + countPops rest
          = l.length + (countPushes rest + 1)
      rw [List.length_append] at hrec
      simp only [List.length_cons, List.length_nil] at hrec
      omega
    | pop =>
      rw [validPushPop, Bool.and_eq_true] at h
      have hne : 0 < l.length := of_decide_eq_true h.1
      have hrec := ih l.dropLast h.2
      show (runStack l.dropLast rest).length + (countPops rest + 1)
          = l.length + countPushes rest
      rw [List.length_dropLast] at hrec
      omega

/-- C7: confirmed. Starting from an empty vector, after any valid sequence of
PushBack/PopBack calls (each pop applied to a non-empty vector) the size
equals the number of pushes minus the number of pops, and the elements read
back in index order are exactly the not-yet-popped pushed values in push
order as given by the reference stack semantics; both hold for every such
sequence, hence at every point of a longer history. -/
theorem pushpop_history (ops : List (PushPop α))
    (h : validPushPop ([] : List α) ops = true) :
    (runPushPop (Vector.empty : Vector α) ops).elems = runStack [] ops
    ∧ (runPushPop (Vector.empty : Vector α) ops).Size
        = countPushes ops - countPops ops := by
  have helems : (runPushPop (Vector.empty : Vector α) ops).elems
      = runStack [] ops := runPushPop_elems ops Vector.empty
  have hlen := runStack_length ops ([] : List α) h
  refine ⟨helems, ?_⟩
  show (runPushPop (Vector.empty : Vector α) ops).elems.length = _
  rw [helems]
  simp only [List.length_nil] at hlen
  omega

/-- Witness for C7: the history push 1, push 2, pop, push 3 leaves contents
`[1, 3]` and size `3 - 1`. -/
theorem pushpop_history_witness :
    (runPushPop (Vector.empty : Vector Nat)
        [PushPop.push 1, PushPop.push 2, PushPop.pop, PushPop.push 3]).elems
      = runStack []
        [PushPop.push 1, PushPop.push 2, PushPop.pop, PushPop.push 3]
    ∧ (runPushPop (Vector.empty : Vector Nat)
        [PushPop.push 1, PushPop.push 2, PushPop.pop, PushPop.push 3]).Size
      = countPushes [PushPop.push (1 : Nat), PushPop.push 2, PushPop.pop, PushPop.push 3]
        - countPops [PushPop.push (1 : Nat), PushPop.push 2, PushPop.pop, PushPop.push 3] :=
  pushpop_history
    [PushPop.push 1, PushPop.push 2, PushPop.pop, PushPop.push 3] (by decide)

end AdvancedVector
